import Mathlib

/-!
Shallow embedding of `src/main.py` and `src/check.py` of the clinical-document
reconciliation repository.  Python strings are modelled as `List Char`; the
case conversion `str.upper`, the digit tests `str.isdigit` / regex `\d`, and
whitespace stripping are modelled on the ASCII subset on which the program
operates.  Filesystem reads, the Excel reader and the XML parser are external
collaborators (spec section 6): they enter the model as explicit inputs
(a file list, a roster mapping, an XML oracle).  Console `print` calls are
modelled as an explicit log of `LogEntry` values.
-/

/-- ASCII lower/upper-case letter pairs, used to model Python `str.upper`. -/
def pyUpperPairs : List (Char × Char) :=
  [('a','A'), ('b','B'), ('c','C'), ('d','D'), ('e','E'), ('f','F'), ('g','G'),
   ('h','H'), ('i','I'), ('j','J'), ('k','K'), ('l','L'), ('m','M'), ('n','N'),
   ('o','O'), ('p','P'), ('q','Q'), ('r','R'), ('s','S'), ('t','T'), ('u','U'),
   ('v','V'), ('w','W'), ('x','X'), ('y','Y'), ('z','Z')]

/-- Python `str.upper` on one character (ASCII; other characters unchanged). -/
def pyUpper (c : Char) : Char :=
  (((pyUpperPairs.find? (fun pr => pr.1 == c)).map Prod.snd).getD c)

/-- Python `str.upper` on a string. -/
def upperL (s : List Char) : List Char := s.map pyUpper

/-- Python `filename.split("-")` (src/main.py lines 28 and 54): split at every
dash, keeping empty pieces; the empty string splits to one empty piece. -/
def splitDash : List Char → List (List Char)
  | [] => [[]]
  | c :: rest =>
    match splitDash rest with
    | [] => [[]]
    | t :: ts => if c = '-' then [] :: t :: ts else (c :: t) :: ts

/-- posix `os.path.basename`: the part of the path after the last slash
(src/main.py lines 52, 90, 116). -/
def basename (fp : List Char) : List Char :=
  (fp.reverse.takeWhile (fun c => c != '/')).reverse

/-- The sentinel string "UNKNOWN" used throughout src/main.py. -/
def UNKNOWN' : List Char := "UNKNOWN".toList

/-- The unknown-name sentinel "未知姓名" (src/main.py lines 61, 78). -/
def unknownName : List Char := "未知姓名".toList

def sd04 : List Char := "SD-04".toList

def sd05 : List Char := "SD-05".toList

def sdTok : List Char := "SD".toList

def sdDashTok : List Char := "SD-".toList

/-- Python `s.isdigit()`: nonempty and all digits (ASCII model). -/
def pyIsDigit (s : List Char) : Bool := !s.isEmpty && s.all Char.isDigit

/-- `parts[i+1].isdigit()` guard of src/main.py line 30, applied to the list of
tokens after position `i`: false when there is no next token. -/
def nextTokDigits : List (List Char) → Bool
  | [] => false
  | q :: _ => pyIsDigit q

/-- `parts[i+1]` of src/main.py line 31 (only used under `nextTokDigits`). -/
def headTok : List (List Char) → List Char
  | [] => []
  | q :: _ => q

/-- Python `re.match(r"SD\d+", s)` viewed as a Boolean: `s` begins with "SD"
followed by at least one digit (`re.match` anchors at the start only). -/
def matchFused : List Char → Bool
  | 'S' :: 'D' :: d :: _ => d.isDigit
  | _ => false

/-- Python `re.match(r"SD-\d+", s)` viewed as a Boolean: `s` begins with
"SD-" followed by at least one digit. -/
def matchDashed : List Char → Bool
  | 'S' :: 'D' :: '-' :: d :: _ => d.isDigit
  | _ => false

/-- The token loop of `parse_category` (src/main.py lines 29-36): for each
token `p` in order, first the exact-"SD"-next-token-digits pattern, then
`re.match(r"SD\d+", p.upper())`, then `re.match(r"SD-\d+", p.upper())`. -/
def catLoop : List (List Char) → List Char
  | [] => UNKNOWN'
  | p :: rest =>
    if upperL p = sdTok ∧ nextTokDigits rest = true then sdDashTok ++ headTok rest
    else if matchFused (upperL p) then upperL p
    else if matchDashed (upperL p) then upperL p
    else catLoop rest

/-- `parse_category` (src/main.py lines 27-36). -/
def parse_category (fname : List Char) : List Char := catLoop (splitDash fname)

/-- The loop of `parse_category` with its third per-token branch
(`re.match(r"SD-\d+", ...)`) removed, for claim C9. -/
def noThirdLoop : List (List Char) → List Char
  | [] => UNKNOWN'
  | p :: rest =>
    if upperL p = sdTok ∧ nextTokDigits rest = true then sdDashTok ++ headTok rest
    else if matchFused (upperL p) then upperL p
    else noThirdLoop rest

/-- `parse_category` with the dead third branch removed (claim C9). -/
def parse_category_noThird (fname : List Char) : List Char :=
  noThirdLoop (splitDash fname)

/-- The scanning loop of the amended claim C5: per token, pattern 1 (exact
marker token followed by an all-digits token), then pattern 2 with PREFIX
semantics (the upper-cased token begins with the marker followed by a digit,
which is what `matchFused` tests), else continue; `UNKNOWN` when the tokens
run out.  There is no third pattern. -/
def amendedCatLoop : List (List Char) → List Char
  | [] => UNKNOWN'
  | p :: rest =>
    if upperL p = sdTok ∧ nextTokDigits rest = true then sdDashTok ++ headTok rest
    else if matchFused (upperL p) then upperL p
    else amendedCatLoop rest

/-- Category resolver as worded by the amended claim C5. -/
def parse_category_amendedC5 (fname : List Char) : List Char :=
  amendedCatLoop (splitDash fname)

/-- Claim C5 as stated, pattern 2: the WHOLE token is the marker immediately
followed by digits (nothing else). -/
def fusedWhole : List Char → Bool
  | 'S' :: 'D' :: d :: rest => (d :: rest).all Char.isDigit
  | _ => false

/-- The scanning loop of claim C5 as stated: pattern 1, then the full-token
fused pattern 2, otherwise `UNKNOWN`. -/
def specCatLoopC5 : List (List Char) → List Char
  | [] => UNKNOWN'
  | p :: rest =>
    if upperL p = sdTok ∧ nextTokDigits rest = true then sdDashTok ++ headTok rest
    else if fusedWhole (upperL p) then upperL p
    else specCatLoopC5 rest

/-- Category resolver as claim C5 states it (full-token fused pattern). -/
def specCategoryC5 (fname : List Char) : List Char := specCatLoopC5 (splitDash fname)

/-- Claim C6's canonical delimited shape: exactly "SD-" followed by exactly
two digits (two-digit zero-padded number). -/
def specCanonicalSD : List Char → Bool
  | 'S' :: 'D' :: '-' :: d1 :: d2 :: [] => d1.isDigit && d2.isDigit
  | _ => false

/-- The `id` node that `extract_patient_id_from_xml` queries: the result of
`root.find(".//id[@root='2.16.156.10011.1.1']")`; `extAttr` is the value of
its "extension" attribute when present (src/main.py lines 43-45). -/
structure XmlIdNode where
  extAttr : Option (List Char)
deriving DecidableEq

/-- A parsed XML document, reduced to the single query the program makes:
`idNode` is the node found by `root.find(...)`, when any. -/
structure XmlDoc where
  idNode : Option XmlIdNode
deriving DecidableEq

/-- The external XML parser: `ET.parse` either raises (modelled `error`) or
yields a document (src/main.py line 41). -/
abbrev XmlOracle := List Char → Except Unit XmlDoc

/-- The roster loaded by `load_mapping`: person name to patient id;
`mapping.get(name, "UNKNOWN")` is modelled by `getD`. -/
abbrev Mapping := List Char → Option (List Char)

/-- One console diagnostic, one constructor per `print` site the claims rely
on (src/main.py lines 47, 64, 66, 95). -/
inductive LogEntry where
  | xmlParseFail (path : List Char)
  | rosterMiss (category name : List Char)
  | rosterFill (category name pid : List Char)
  | noPatientId (fname : List Char)
deriving DecidableEq

/-- `extract_patient_id_from_xml` (src/main.py lines 39-48): a parse failure
is caught, logged with the path, and becomes "UNKNOWN"; a found node with an
"extension" attribute yields that attribute; otherwise "UNKNOWN". -/
def extract_patient_id_from_xml (parse : XmlOracle) (fp : List Char) :
    List Char × List LogEntry :=
  match parse fp with
  | Except.error _ => (UNKNOWN', [LogEntry.xmlParseFail fp])
  | Except.ok doc =>
    match doc.idNode with
    | some node =>
      match node.extAttr with
      | some ext => (ext, [])
      | none => (UNKNOWN', [])
    | none => (UNKNOWN', [])

/-- Characters the regex class `[^/\\]` rejects are exactly the two slashes. -/
def notSlash (c : Char) : Bool := !(c == '/' || c == '\\')

/-- An attempt of `re.search(r"(ZY\d+)-([^/\\]+)", ...)` anchored at the head
of `s`: literal "ZY", a maximal nonempty digit run, a dash, then a maximal
nonempty run of non-slash characters (src/main.py line 70).  Only the maximal
digit run can be followed by the dash, so no other backtracking exists. -/
def zyMatchAt (s : List Char) : Option (List Char × List Char) :=
  match s with
  | 'Z' :: 'Y' :: rest =>
    match rest.dropWhile Char.isDigit with
    | '-' :: tail =>
      if rest.takeWhile Char.isDigit = [] then none
      else if tail.takeWhile notSlash = [] then none
      else some ('Z' :: 'Y' :: rest.takeWhile Char.isDigit, tail.takeWhile notSlash)
    | _ => none
  | _ => none

/-- `re.search(r"(ZY\d+)-([^/\\]+)", filepath)`: leftmost match, scanning
start positions left to right (src/main.py line 70). -/
def zySearch : List Char → Option (List Char × List Char)
  | [] => none
  | c :: rest =>
    match zyMatchAt (c :: rest) with
    | some r => some r
    | none => zySearch rest

/-- `parse_patient_id_and_name` (src/main.py lines 51-80), returning the
`(patient_id, person_name)` pair together with its console log. -/
def parse_patient_id_and_name (fp : List Char) (m : Mapping) (parse : XmlOracle) :
    (List Char × List Char) × List LogEntry :=
  let fname := basename fp
  let category := parse_category fname
  let parts := splitDash fname
  if category = sd04 ∨ category = sd05 then
    let name := parts.getD 4 unknownName
    let pid := (m name).getD UNKNOWN'
    if pid = UNKNOWN' then ((pid, name), [LogEntry.rosterMiss category name])
    else ((pid, name), [LogEntry.rosterFill category name pid])
  else
    match zySearch fp with
    | some pr => (pr, [])
    | none =>
      let name := parts.getD 3 unknownName
      let ex := extract_patient_id_from_xml parse fp
      ((ex.1, name), ex.2)

/-- Claim C3 as stated: the layered chain that attempts each layer in order
and stops at the FIRST layer that yields a (non-UNKNOWN) person name.  Layer 1
yields a name only for the two designated categories with the name token
present; otherwise the chain moves on to path-pattern extraction, and then to
the combined positional-token and document-content layer. -/
def specChainC3 (fp : List Char) (m : Mapping) (parse : XmlOracle) :
    List Char × List Char :=
  let fname := basename fp
  let category := parse_category fname
  let parts := splitDash fname
  if (category = sd04 ∨ category = sd05) ∧ 5 ≤ parts.length then
    let name := parts.getD 4 unknownName
    ((m name).getD UNKNOWN', name)
  else
    match zySearch fp with
    | some pr => pr
    | none => ((extract_patient_id_from_xml parse fp).1, parts.getD 3 unknownName)

/-- Layer 1 of the amended claim C3: category-directed filename extraction
with roster lookup (src/main.py lines 57-67), terminal whenever the category
is one of the two designated ones. -/
def layerCategoryDirected (parts : List (List Char)) (m : Mapping) :
    List Char × List Char :=
  let name := parts.getD 4 unknownName
  ((m name).getD UNKNOWN', name)

/-- Layer 2 of the amended claim C3: path-pattern extraction (line 70). -/
def layerPathPattern (fp : List Char) : Option (List Char × List Char) :=
  zySearch fp

/-- Layer 3 of the amended claim C3: positional filename token (lines 75-78). -/
def layerPositionalName (parts : List (List Char)) : List Char :=
  parts.getD 3 unknownName

/-- Layer 4 of the amended claim C3: document-content extraction (line 79). -/
def layerContentPid (parse : XmlOracle) (fp : List Char) : List Char :=
  (extract_patient_id_from_xml parse fp).1

/-- The amended claim C3 chain: layer 1 is attempted exactly for the two
designated categories and is then terminal (even when its name is the
unknown-name sentinel); otherwise layer 2 applies when its pattern matches;
otherwise layers 3 and 4 run together, layer 3 supplying the name and layer 4
the patient id. -/
def amendedChainC3 (fp : List Char) (m : Mapping) (parse : XmlOracle) :
    List Char × List Char :=
  let fname := basename fp
  let category := parse_category fname
  let parts := splitDash fname
  if category = sd04 ∨ category = sd05 then layerCategoryDirected parts m
  else
    match layerPathPattern fp with
    | some pr => pr
    | none => (layerContentPid parse fp, layerPositionalName parts)

/-- The Reconciliation Index: `patient_files[patient_id][category]` as an
insertion-ordered association structure (Python `defaultdict` semantics). -/
abbrev Index := List (List Char × List (List Char × List (List Char)))

/-- Association-list lookup (Python dict access by key). -/
def findA {V : Type} (k : List Char) : List (List Char × V) → Option V
  | [] => none
  | (k', v) :: rest => if k = k' then some v else findA k rest

/-- `d[category].append(f)` on an inner `defaultdict(list)`: append to the
existing bucket, or create the bucket at the end (insertion order). -/
def appendInner : List (List Char × List (List Char)) → List Char → List Char →
    List (List Char × List (List Char))
  | [], c, f => [(c, [f])]
  | (c', fs) :: rest, c, f =>
    if c = c' then (c', fs ++ [f]) :: rest else (c', fs) :: appendInner rest c f

/-- `patient_files[patient_id][category].append(src)` (src/main.py line 101)
on the nested `defaultdict`. -/
def insertIdx (idx : Index) (p c f : List Char) : Index :=
  match idx with
  | [] => [(p, [(c, [f])])]
  | (p', cats) :: rest =>
    if p = p' then (p', appendInner cats c f) :: rest
    else (p', cats) :: insertIdx rest p c f

/-- Read the ordered bucket `idx[p][c]`, empty when absent. -/
def getBucket (idx : Index) (p c : List Char) : List (List Char) :=
  match findA p idx with
  | none => []
  | some cats =>
    match findA c cats with
    | none => []
    | some fs => fs

/-- The per-file body of the `copy_all_files` loop (src/main.py lines 89-101):
resolve, print the missing-patient diagnostic when the id is "UNKNOWN", and
append the file to `patient_files[patient_id][category]`. -/
def caStep (m : Mapping) (parse : XmlOracle) (acc : Index × List LogEntry)
    (src : List Char) : Index × List LogEntry :=
  let fname := basename src
  let r := parse_patient_id_and_name src m parse
  let category := parse_category fname
  let plog := if r.1.1 = UNKNOWN' then [LogEntry.noPatientId fname] else []
  (insertIdx acc.1 r.1.1 category src, acc.2 ++ r.2 ++ plog)

/-- `copy_all_files` (src/main.py lines 83-103): builds the Reconciliation
Index over the whole enumerated file list and returns it with the log. -/
def copy_all_files (files : List (List Char)) (m : Mapping) (parse : XmlOracle) :
    Index × List LogEntry :=
  files.foldl (caStep m parse) ([], [])

/-- Keys of the per-patient per-category copy counter of
`copy_limited_files`: `(patient_id, category)`. -/
abbrev BKey := List Char × List Char

/-- The innermost loop of `copy_limited_files` (src/main.py lines 114-121):
walk one bucket's file list, copying while `counter[patient][category] < 10`
and incrementing the counter per copy; emits the copy events in order. -/
def clfBucket : (BKey → Nat) → BKey → List (List Char) →
    List (BKey × List Char) × (BKey → Nat)
  | cnt, _, [] => ([], cnt)
  | cnt, k, f :: fs =>
    if cnt k < 10 then
      ((k, f) :: (clfBucket (fun k2 => if k2 = k then cnt k2 + 1 else cnt k2) k fs).1,
       (clfBucket (fun k2 => if k2 = k then cnt k2 + 1 else cnt k2) k fs).2)
    else clfBucket cnt k fs

/-- The per-patient loop of `copy_limited_files` over its categories. -/
def clfCats : (BKey → Nat) → List Char → List (List Char × List (List Char)) →
    List (BKey × List Char) × (BKey → Nat)
  | cnt, _, [] => ([], cnt)
  | cnt, p, (c, fs) :: rest =>
    ((clfBucket cnt (p, c) fs).1 ++ (clfCats (clfBucket cnt (p, c) fs).2 p rest).1,
     (clfCats (clfBucket cnt (p, c) fs).2 p rest).2)

/-- The outer loop of `copy_limited_files` over the patients. -/
def clfPatients : (BKey → Nat) →
    List (List Char × List (List Char × List (List Char))) →
    List (BKey × List Char) × (BKey → Nat)
  | cnt, [] => ([], cnt)
  | cnt, (p, cats) :: rest =>
    ((clfCats cnt p cats).1 ++ (clfPatients (clfCats cnt p cats).2 rest).1,
     (clfPatients (clfCats cnt p cats).2 rest).2)

/-- `copy_limited_files` (src/main.py lines 106-121): the ordered list of
`((patient_id, category), file)` copy events, with a fresh all-zero counter.
The per-file destination-path name resolution (line 117) does not influence
which files are selected and is not needed by the claims. -/
def copy_limited_files (pf : List (List Char × List (List Char × List (List Char)))) :
    List (BKey × List Char) :=
  (clfPatients (fun _ => 0) pf).1

/-- The balanced batch sizes of `make_validation_set` for `n` files
(src/main.py lines 153-163): `num = ceil(n/100)` groups, the first
`n mod num` of size `n / num + 1`, the rest of size `n / num`. -/
def chunkSizes (n : Nat) : List Nat :=
  (List.range ((n + 99) / 100)).map
    (fun i => n / ((n + 99) / 100) + if i < n % ((n + 99) / 100) then 1 else 0)

/-- Sequential slicing `files[start : start + size]` over a size list
(src/main.py lines 156-165). -/
def takeChunks {α : Type} : List Nat → List α → List (List α)
  | [], _ => []
  | s :: ss, xs => xs.take s :: takeChunks ss (xs.drop s)

/-- The directory layout `make_validation_set` produces for one category:
either a single flat directory or numbered batch subdirectories. -/
inductive ValidationLayout (α : Type) where
  | single (files : List α)
  | batched (batches : List (List α))
deriving DecidableEq

/-- The per-category split of `make_validation_set` (src/main.py lines
146-173): more than 100 pooled files are cut into balanced numbered batches,
otherwise all files go flat into the category directory. -/
def make_validation_set {α : Type} (files : List α) : ValidationLayout α :=
  if 100 < files.length then
    ValidationLayout.batched (takeChunks (chunkSizes files.length) files)
  else ValidationLayout.single files

/-- Characters Python `str.strip()` removes (ASCII whitespace). -/
def isPySpace (c : Char) : Bool :=
  c == ' ' || c == '\t' || c == '\n' || c == '\r' || c == '\x0b' || c == '\x0c'

/-- Python `s.strip()`. -/
def pyStrip (s : List Char) : List Char :=
  ((s.dropWhile isPySpace).reverse.dropWhile isPySpace).reverse

/-- `folder.split("-", 1)[0].strip()` (src/check.py lines 18-20): the
directory-name prefix up to the first dash, whitespace-stripped. -/
def archiveId (folder : List Char) : List Char :=
  pyStrip (folder.takeWhile (fun c => c != '-'))

/-- Claim C8 as stated: the raw directory-name prefix up to the first
delimiter, with no whitespace normalization. -/
def specArchivePrefixC8 (folder : List Char) : List Char :=
  folder.takeWhile (fun c => c != '-')

/-- `load_patient_ids_from_full` (src/check.py lines 13-21): the set of
archive patient ids read off the listed archive directory names. -/
def load_patient_ids_from_full (folders : List (List Char)) : Finset (List Char) :=
  (folders.map archiveId).toFinset

/-- One roster row as read by `load_patient_ids_from_excel`: the
"住院流水号" (patient id) and "患者姓名" (patient name) cells; the row number
column 行号 is the 0-based index plus 2 (src/check.py line 9). -/
structure ExcelRow where
  pid : List Char
  pname : List Char
deriving DecidableEq

/-- `set(df["住院流水号"].unique())` (src/check.py line 26). -/
def excelIds (df : List ExcelRow) : Finset (List Char) :=
  (df.map ExcelRow.pid).toFinset

/-- The rows printed for missing ids (src/check.py lines 38-40): each roster
row whose id is missing contributes one line with its Excel row number
`index + 2`; `i` is the 0-based index of the first row of `rows`. -/
def missingRowsAux (miss : Finset (List Char)) : Nat → List ExcelRow →
    List (Nat × List Char × List Char)
  | _, [] => []
  | i, r :: rs =>
    if r.pid ∈ miss then (i + 2, r.pid, r.pname) :: missingRowsAux miss (i + 1) rs
    else missingRowsAux miss (i + 1) rs

/-- The report `check_missing_patients` prints: the missing id set, the extra
id set (reported without any row context), and the per-row missing lines. -/
structure AuditReport where
  missing : Finset (List Char)
  extra : Finset (List Char)
  missingRows : List (Nat × List Char × List Char)
deriving DecidableEq

/-- `check_missing_patients` (src/check.py lines 24-45). -/
def check_missing_patients (df : List ExcelRow) (fullIds : Finset (List Char)) :
    AuditReport :=
  { missing := excelIds df \ fullIds
    extra := fullIds \ excelIds df
    missingRows := missingRowsAux (excelIds df \ fullIds) 0 df }

/-- A roster with no entries: every lookup misses. -/
def emptyMapping : Mapping := fun _ => none

/-- An XML oracle on which every parse raises. -/
def failOracle : XmlOracle := fun _ => Except.error ()

/-- Concrete document path for claim C3's counterexample. -/
def fpC3 : List Char := "ZY12-王/SD-04-x.xml".toList

/-- `pyUpper` can only produce a dash from a dash: the upper-case table maps
lower-case letters to upper-case letters and leaves everything else fixed. -/
theorem pyUpper_eq_dash {c : Char} (h : pyUpper c = '-') : c = '-' := by
  unfold pyUpper at h
  cases hf : pyUpperPairs.find? (fun pr => pr.1 == c) with
  | none => rw [hf] at h; simpa using h
  | some pr =>
    rw [hf] at h
    simp at h
    have hmem := List.mem_of_find?_eq_some hf
    have hall : ∀ x ∈ pyUpperPairs, x.2 ≠ '-' := by decide
    exact absurd h (hall pr hmem)

/-- If the dead third branch's test fires on an upper-cased token, the token
contained a literal dash. -/
theorem matchDashed_mem {p : List Char} (h : matchDashed (upperL p) = true) :
    ('-' : Char) ∈ p := by
  rw [matchDashed.eq_def] at h
  split at h
  next x d rest heq =>
    have hdash : ('-' : Char) ∈ upperL p := by rw [heq]; simp
    rcases List.mem_map.mp hdash with ⟨c, hc, hcu⟩
    exact (pyUpper_eq_dash hcu) ▸ hc
  next => exact absurd h (by simp)

/-- Tokens produced by splitting on the dash contain no dash. -/
theorem splitDash_no_dash (s : List Char) :
    ∀ p ∈ splitDash s, ('-' : Char) ∉ p := by
  induction s with
  | nil => intro p hp; simp [splitDash] at hp; simp [hp]
  | cons c rest ih =>
    intro p hp
    cases hsd : splitDash rest with
    | nil => simp [splitDash, hsd] at hp; simp [hp]
    | cons t ts =>
      simp only [splitDash, hsd] at hp
      by_cases hc : c = '-'
      · simp [hc] at hp
        rcases hp with hp | hp | hp
        · simp [hp]
        · exact hp ▸ ih t (by rw [hsd]; exact List.mem_cons_self t ts)
        · exact ih p (by rw [hsd]; exact List.mem_cons_of_mem t hp)
      · simp [hc] at hp
        rcases hp with hp | hp
        · subst hp
          intro hmem
          rcases List.mem_cons.mp hmem with h1 | h1
          · exact hc h1.symm
          · exact ih t (by rw [hsd]; exact List.mem_cons_self t ts) h1
        · exact ih p (by rw [hsd]; exact List.mem_cons_of_mem t hp)

/-- On token lists without dashes the third branch of `catLoop` is dead. -/
theorem catLoop_eq_noThird (ps : List (List Char))
    (hnd : ∀ p ∈ ps, ('-' : Char) ∉ p) : catLoop ps = noThirdLoop ps := by
  induction ps with
  | nil => rfl
  | cons p rest ih =>
    have h3 : matchDashed (upperL p) = false := by
      cases hmd : matchDashed (upperL p) with
      | false => rfl
      | true => exact absurd (matchDashed_mem hmd) (hnd p (List.mem_cons_self p rest))
    by_cases h1 : upperL p = sdTok ∧ nextTokDigits rest = true
    · simp [catLoop, noThirdLoop, h1]
    · by_cases h2 : matchFused (upperL p) = true
      · simp [catLoop, noThirdLoop, h1, h2]
      · simp only [catLoop, noThirdLoop, if_neg h1,
          Bool.not_eq_true] at *
        simp [h2, h3]
        exact ih (fun q hq => hnd q (List.mem_cons_of_mem p hq))

/-- On token lists without dashes `catLoop` agrees with the amended-C5 loop. -/
theorem catLoop_eq_amendedC5 (ps : List (List Char))
    (hnd : ∀ p ∈ ps, ('-' : Char) ∉ p) : catLoop ps = amendedCatLoop ps := by
  induction ps with
  | nil => rfl
  | cons p rest ih =>
    have h3 : matchDashed (upperL p) = false := by
      cases hmd : matchDashed (upperL p) with
      | false => rfl
      | true => exact absurd (matchDashed_mem hmd) (hnd p (List.mem_cons_self p rest))
    by_cases h1 : upperL p = sdTok ∧ nextTokDigits rest = true
    · simp [catLoop, amendedCatLoop, h1]
    · by_cases h2 : matchFused (upperL p) = true
      · simp [catLoop, amendedCatLoop, h1, h2]
      · simp only [catLoop, amendedCatLoop, if_neg h1,
          Bool.not_eq_true] at *
        simp [h2, h3]
        exact ih (fun q hq => hnd q (List.mem_cons_of_mem p hq))

/-- Claim C9: the third per-token branch of the Category Resolver
(`re.match(r"SD-\d+", ...)`) can never fire, because the tokens of the
dash-split filename contain no dash; consequently `parse_category` is
extensionally equal to the same function with that branch removed. -/
theorem C9_dead_branch (fname : List Char) :
    (∀ p ∈ splitDash fname, matchDashed (upperL p) = false) ∧
    parse_category fname = parse_category_noThird fname := by
  constructor
  · intro p hp
    cases hmd : matchDashed (upperL p) with
    | false => rfl
    | true => exact absurd (matchDashed_mem hmd) (splitDash_no_dash fname p hp)
  · exact catLoop_eq_noThird _ (fun p hp => splitDash_no_dash fname p hp)

/-- Witness for C9 at the concrete filename "a-SD-04.xml" and its token "SD". -/
theorem C9_witness :
    matchDashed (upperL ("SD".toList)) = false ∧
    parse_category ("a-SD-04.xml".toList) = parse_category_noThird ("a-SD-04.xml".toList) :=
  ⟨(C9_dead_branch ("a-SD-04.xml".toList)).1 ("SD".toList) (by decide),
   (C9_dead_branch ("a-SD-04.xml".toList)).2⟩

/-- Claim C5 (counterexample): on the filename "SD04abc" neither pattern 1
nor a full-token fused match applies, so the claim as stated demands
`UNKNOWN`; the code's `re.match` prefix semantics makes the resolver return
the whole upper-cased token "SD04ABC" instead. -/
theorem C5_counterexample :
    specCategoryC5 ("SD04abc".toList) = UNKNOWN' ∧
    parse_category ("SD04abc".toList) = "SD04ABC".toList ∧
    parse_category ("SD04abc".toList) ≠ specCategoryC5 ("SD04abc".toList) := by
  decide

/-- Claim C5 (amended): the Category Resolver scans the dash-split tokens
left to right, per token trying (1) a token exactly equal (case-insensitively)
to the marker followed by an all-digits token, yielding marker-dash-digits,
then (2) a token whose upper-casing BEGINS with the marker followed by a
digit, returned whole and upper-cased, and returns `UNKNOWN` when no token
matches; matching is case-insensitive and output upper-case. -/
theorem C5_category_scan (fname : List Char) :
    parse_category fname = parse_category_amendedC5 fname :=
  catLoop_eq_amendedC5 _ (fun p hp => splitDash_no_dash fname p hp)

/-- Claim C6 (counterexample): the filename "SD-4" takes the delimited branch
and yields "SD-4", which is non-UNKNOWN but not of the two-digit zero-padded
canonical shape `SD-<NN>` the claim asserts. -/
theorem C6_counterexample :
    parse_category ("SD-4".toList) = "SD-4".toList ∧
    parse_category ("SD-4".toList) ≠ UNKNOWN' ∧
    specCanonicalSD (parse_category ("SD-4".toList)) = false := by
  decide

/-- The possible output shapes of the `parse_category` token loop on token
lists without dashes: `UNKNOWN`, or "SD-" followed by a nonempty all-digits
token taken verbatim from the filename, or an upper-cased whole token whose
upper-casing begins with "SD" plus a digit. -/
theorem catLoop_shapes (ps : List (List Char))
    (hnd : ∀ p ∈ ps, ('-' : Char) ∉ p) :
    catLoop ps = UNKNOWN' ∨
    (∃ d, pyIsDigit d = true ∧ catLoop ps = sdDashTok ++ d) ∨
    (∃ t, t ∈ ps ∧ matchFused (upperL t) = true ∧ catLoop ps = upperL t) := by
  induction ps with
  | nil => left; rfl
  | cons p rest ih =>
    have h3 : matchDashed (upperL p) = false := by
      cases hmd : matchDashed (upperL p) with
      | false => rfl
      | true => exact absurd (matchDashed_mem hmd) (hnd p (List.mem_cons_self p rest))
    by_cases h1 : upperL p = sdTok ∧ nextTokDigits rest = true
    · right; left
      refine ⟨headTok rest, ?_, by simp [catLoop, h1]⟩
      cases rest with
      | nil => simp [nextTokDigits] at h1
      | cons q qs => simpa [nextTokDigits, headTok] using h1.2
    · by_cases h2 : matchFused (upperL p) = true
      · right; right
        exact ⟨p, List.mem_cons_self p rest, h2, by simp [catLoop, h1, h2]⟩
      · have hrec : catLoop (p :: rest) = catLoop rest := by
          simp only [catLoop, if_neg h1]
          simp [h2, h3]
        rcases ih (fun q hq => hnd q (List.mem_cons_of_mem p hq)) with h | h | h
        · left; rw [hrec]; exact h
        · right; left; rw [hrec]; exact h
        · right; right
          rcases h with ⟨t, ht, hf, he⟩
          exact ⟨t, List.mem_cons_of_mem p ht, hf, by rw [hrec]; exact he⟩

/-- Claim C6 (amended): every non-UNKNOWN code the Category Resolver produces
via the delimited pattern has the shape "SD-" followed by the adjacent digit
token verbatim (one or more digits, no zero-padding enforced); the only other
non-UNKNOWN shape is an upper-cased fused token beginning "SD"+digit. -/
theorem C6_code_shapes (fname : List Char) :
    parse_category fname = UNKNOWN' ∨
    (∃ d, pyIsDigit d = true ∧ parse_category fname = sdDashTok ++ d) ∨
    (∃ t, t ∈ splitDash fname ∧ matchFused (upperL t) = true ∧
      parse_category fname = upperL t) :=
  catLoop_shapes _ (fun p hp => splitDash_no_dash fname p hp)

/-- The head of a `dropWhile` result, when any, fails the predicate. -/
theorem dropWhile_head_false {α : Type} (p : α → Bool) (l : List α) :
    l.dropWhile p = [] ∨ ∃ c l2, l.dropWhile p = c :: l2 ∧ p c = false := by
  induction l with
  | nil => left; rfl
  | cons a t ih =>
    by_cases h : p a = true
    · rw [List.dropWhile_cons, if_pos h]; exact ih
    · right
      refine ⟨a, t, ?_, by simpa using h⟩
      rw [List.dropWhile_cons, if_neg h]

/-- Anatomy of a successful anchored match of `(ZY\d+)-([^/\\]+)`. -/
theorem zyMatchAt_spec {s id nm : List Char} (h : zyMatchAt s = some (id, nm)) :
    ∃ ds post, id = 'Z' :: 'Y' :: ds ∧ ds ≠ [] ∧ ds.all Char.isDigit = true ∧
      nm ≠ [] ∧ nm.all notSlash = true ∧
      s = id ++ '-' :: (nm ++ post) ∧
      (post = [] ∨ ∃ c p2, post = c :: p2 ∧ notSlash c = false) := by
  unfold zyMatchAt at h
  split at h
  next rest =>
    split at h
    next tail heq =>
      split at h
      next => exact absurd h (by simp)
      next hds =>
        split at h
        next => exact absurd h (by simp)
        next hnm =>
          simp only [Option.some.injEq, Prod.mk.injEq] at h
          obtain ⟨hid, hnmv⟩ := h
          refine ⟨rest.takeWhile Char.isDigit, tail.dropWhile notSlash,
            hid.symm, hds, ?_, ?_, ?_, ?_, ?_⟩
          · exact List.all_eq_true.mpr (fun x hx => List.mem_takeWhile_imp hx)
          · rw [← hnmv]; exact hnm
          · rw [← hnmv]
            exact List.all_eq_true.mpr (fun x hx => List.mem_takeWhile_imp hx)
          · rw [← hid, ← hnmv]
            have h1 : rest.takeWhile Char.isDigit ++ rest.dropWhile Char.isDigit = rest :=
              List.takeWhile_append_dropWhile _ _
            have h2 : tail.takeWhile notSlash ++ tail.dropWhile notSlash = tail :=
              List.takeWhile_append_dropWhile _ _
            simp only [List.cons_append, List.append_assoc]
            rw [h2, ← heq, h1]
          · exact dropWhile_head_false notSlash tail
    next => exact absurd h (by simp)
  next => exact absurd h (by simp)

/-- A successful `re.search` is an anchored match at some split of the
input. -/
theorem zySearch_decomp {s : List Char} {r : List Char × List Char}
    (h : zySearch s = some r) : ∃ pre s2, s = pre ++ s2 ∧ zyMatchAt s2 = some r := by
  induction s with
  | nil => simp [zySearch] at h
  | cons c rest ih =>
    rw [zySearch] at h
    cases hm : zyMatchAt (c :: rest) with
    | some r' =>
      rw [hm] at h
      exact ⟨[], c :: rest, rfl, by rw [hm, ← h]⟩
    | none =>
      rw [hm] at h
      rcases ih h with ⟨pre, s2, hs, hmm⟩
      exact ⟨c :: pre, s2, by rw [List.cons_append, ← hs], hmm⟩

/-- Claim C10: the person-name capture of the path pattern `(ZY\d+)-([^/\\]+)`
is greedy and stops only at a path separator: any successful search splits the
path as `pre ++ "ZY" ++ digits ++ "-" ++ name ++ post` where the name is
nonempty and separator-free and `post` is empty or begins with a separator —
so when the first match lies inside the final (separator-free) filename
component, the name is the entire remainder of the filename, extension and
further dash-separated tokens included. -/
theorem C10_greedy_name (fp id nm : List Char) (h : zySearch fp = some (id, nm)) :
    ∃ pre ds post,
      fp = pre ++ (id ++ '-' :: (nm ++ post)) ∧
      id = 'Z' :: 'Y' :: ds ∧ ds ≠ [] ∧ ds.all Char.isDigit = true ∧
      nm ≠ [] ∧ nm.all notSlash = true ∧
      (post.all notSlash = true → post = []) ∧
      (post = [] ∨ ∃ c p2, post = c :: p2 ∧ notSlash c = false) := by
  rcases zySearch_decomp h with ⟨pre, s2, hs, hm⟩
  rcases zyMatchAt_spec hm with ⟨ds, post, hid, hds, hdig, hnm, hns, hs2, hpost⟩
  refine ⟨pre, ds, post, ?_, hid, hds, hdig, hnm, hns, ?_, hpost⟩
  · rw [hs, hs2]
  · intro hall
    rcases hpost with h0 | ⟨c, p2, hp, hc⟩
    · exact h0
    · rw [hp] at hall
      simp only [List.all_cons, Bool.and_eq_true] at hall
      exact absurd hall.1 (by simp [hc])

/-- Witness for C10: in "a/ZY12-王-3.xml" the match lies in the final path
component and the captured name "王-3.xml" runs to the end of the filename. -/
theorem C10_witness :
    ∃ pre ds post,
      "a/ZY12-王-3.xml".toList = pre ++ ("ZY12".toList ++ '-' :: ("王-3.xml".toList ++ post)) ∧
      "ZY12".toList = 'Z' :: 'Y' :: ds ∧ ds ≠ [] ∧ ds.all Char.isDigit = true ∧
      "王-3.xml".toList ≠ [] ∧ ("王-3.xml".toList).all notSlash = true ∧
      (post.all notSlash = true → post = []) ∧
      (post = [] ∨ ∃ c p2, post = c :: p2 ∧ notSlash c = false) :=
  C10_greedy_name _ _ _ (by decide)

/-- Claim C7: the Identity Resolver is total and absorbs content-parse
failures: when the XML parser raises, `extract_patient_id_from_xml` returns
the `UNKNOWN` sentinel together with a diagnostic carrying the path, and on
the content-extraction branch the resolver returns the definite pair
`("UNKNOWN", positional name)` with that same diagnostic — the failure never
propagates past the resolver boundary (the return type is a plain pair). -/
theorem C7_resolver_catches (fp : List Char) (m : Mapping) (parse : XmlOracle)
    (e : Unit) (herr : parse fp = Except.error e) :
    extract_patient_id_from_xml parse fp = (UNKNOWN', [LogEntry.xmlParseFail fp]) ∧
    (¬(parse_category (basename fp) = sd04 ∨ parse_category (basename fp) = sd05) →
      zySearch fp = none →
      parse_patient_id_and_name fp m parse =
        ((UNKNOWN', (splitDash (basename fp)).getD 3 unknownName),
         [LogEntry.xmlParseFail fp])) := by
  have hx : extract_patient_id_from_xml parse fp = (UNKNOWN', [LogEntry.xmlParseFail fp]) := by
    unfold extract_patient_id_from_xml
    rw [herr]
  refine ⟨hx, ?_⟩
  intro hcat hzy
  simp only [parse_patient_id_and_name, if_neg hcat, hzy, hx]

/-- Witness for C7: a file whose XML parse fails resolves to the definite
pair with the UNKNOWN patient id and the parse-failure diagnostic. -/
theorem C7_witness :
    parse_patient_id_and_name ("a.xml".toList) emptyMapping failOracle =
      ((UNKNOWN', (splitDash (basename ("a.xml".toList))).getD 3 unknownName),
       [LogEntry.xmlParseFail ("a.xml".toList)]) :=
  (C7_resolver_catches _ emptyMapping failOracle () rfl).2 (by decide) (by decide)

/-- Claim C3 (counterexample): the path "ZY12-王/SD-04-x.xml" has category
SD-04 but fewer than five filename tokens, so layer 1 yields no name; the
claim's stop-at-first-resolved-name chain would continue to path-pattern
extraction and return ("ZY12", "王"), but the code commits to layer 1 and
returns ("UNKNOWN", 未知姓名). -/
theorem C3_counterexample :
    (parse_patient_id_and_name fpC3 emptyMapping failOracle).1 = (UNKNOWN', unknownName) ∧
    specChainC3 fpC3 emptyMapping failOracle = ("ZY12".toList, "王".toList) ∧
    (parse_patient_id_and_name fpC3 emptyMapping failOracle).1 ≠
      specChainC3 fpC3 emptyMapping failOracle := by
  decide

/-- Claim C3 (amended): the Identity Resolver attempts its layers in the
fixed order (1) category-directed filename extraction, applied exactly when
the category is one of the two designated ones and then terminal even when
its name is the unknown-name sentinel; otherwise (2) path-pattern extraction
when the pattern matches; otherwise (3) positional filename-token fallback
for the name combined with (4) document-content extraction for the id. -/
theorem C3_layered_chain (fp : List Char) (m : Mapping) (parse : XmlOracle) :
    (parse_patient_id_and_name fp m parse).1 = amendedChainC3 fp m parse := by
  by_cases hc : parse_category (basename fp) = sd04 ∨ parse_category (basename fp) = sd05
  · simp only [parse_patient_id_and_name, amendedChainC3, layerCategoryDirected, if_pos hc]
    split <;> rfl
  · simp only [parse_patient_id_and_name, amendedChainC3, layerPathPattern,
      layerPositionalName, layerContentPid, if_neg hc]
    cases hz : zySearch fp <;> simp [hz]

/-- Sum of `k` balanced sizes: base `b` plus one for the first `r` indices. -/
theorem sum_range_base_ite (k b r : Nat) :
    ((List.range k).map (fun i => b + if i < r then 1 else 0)).sum = k * b + min r k := by
  induction k with
  | zero => simp
  | succ n ih =>
    rw [List.range_succ, List.map_append, List.sum_append]
    simp only [List.map_cons, List.map_nil, List.sum_cons, List.sum_nil]
    rw [ih, Nat.succ_mul]
    rcases Nat.lt_or_ge n r with hnr | hnr
    · rw [Nat.min_eq_right (le_of_lt hnr), Nat.min_eq_right hnr, if_pos hnr]
      omega
    · rw [Nat.min_eq_left hnr, Nat.min_eq_left (le_trans hnr (Nat.le_succ n)),
        if_neg (by omega)]
      omega

/-- Sequential slicing with sizes that fit the list: each chunk has exactly
its prescribed size and the chunks concatenate back to the sliced region. -/
theorem takeChunks_spec {α : Type} :
    ∀ (ss : List Nat) (xs : List α), ss.sum ≤ xs.length →
    (takeChunks ss xs).map List.length = ss ∧
    (takeChunks ss xs).flatten = xs.take ss.sum := by
  intro ss
  induction ss with
  | nil => intro xs h; simp [takeChunks]
  | cons s ss ih =>
    intro xs h
    rw [List.sum_cons] at h
    have h1 : s ≤ xs.length := le_trans (Nat.le_add_right s ss.sum) h
    have h2 : ss.sum ≤ (xs.drop s).length := by rw [List.length_drop]; omega
    obtain ⟨ihl, ihj⟩ := ih (xs.drop s) h2
    constructor
    · simp only [takeChunks, List.map_cons, ihl, List.cons.injEq]
      exact ⟨by rw [List.length_take]; exact Nat.min_eq_left h1, trivial⟩
    · simp only [takeChunks, List.flatten_cons, ihj, List.sum_cons]
      rw [List.take_add]

/-- The balanced sizes sum to the file count. -/
theorem chunkSizes_sum (n : Nat) (h : 100 < n) : (chunkSizes n).sum = n := by
  unfold chunkSizes
  rw [sum_range_base_ite]
  have hnum : 0 < (n + 99) / 100 := by omega
  have hmod : n % ((n + 99) / 100) < (n + 99) / 100 := Nat.mod_lt _ hnum
  have hdm := Nat.div_add_mod n ((n + 99) / 100)
  rw [Nat.min_eq_left (le_of_lt hmod)]
  omega

/-- Number of balanced batches. -/
theorem chunkSizes_len (n : Nat) : (chunkSizes n).length = (n + 99) / 100 := by
  unfold chunkSizes
  rw [List.length_map, List.length_range]

/-- The size of the `i`-th balanced batch. -/
theorem chunkSizes_get (n i : Nat) (h : i < (chunkSizes n).length) :
    (chunkSizes n).get ⟨i, h⟩ =
      n / ((n + 99) / 100) + if i < n % ((n + 99) / 100) then 1 else 0 := by
  unfold chunkSizes at *
  rw [List.get_eq_getElem, List.getElem_map, List.getElem_range]

/-- Every balanced size is the base size or the base size plus one. -/
theorem chunkSizes_mem (n : Nat) :
    ∀ x ∈ chunkSizes n, x = n / ((n + 99) / 100) ∨ x = n / ((n + 99) / 100) + 1 := by
  intro x hx
  unfold chunkSizes at hx
  rcases List.mem_map.mp hx with ⟨i, _, hv⟩
  by_cases hir : i < n % ((n + 99) / 100) <;> simp [hir] at hv <;> omega

/-- Claim C2: for `N ≤ 100` pooled files the category keeps a single flat
directory holding all `N` files; for `N > 100` the partitioner makes
`ceil(N/100)` batches, the first `N mod num_batches` of size `base+1` and the
rest of size `base = N div num_batches`, preserving input order, summing
exactly to `N`, pairwise within one of each other, and never empty. -/
theorem C2_balanced_split (α : Type) (files : List α) :
    (files.length ≤ 100 → make_validation_set files = ValidationLayout.single files) ∧
    (100 < files.length →
      ∃ bs, make_validation_set files = ValidationLayout.batched bs ∧
        bs.length = (files.length + 99) / 100 ∧
        100 * (bs.length - 1) < files.length ∧
        files.length ≤ 100 * bs.length ∧
        (bs.map List.length).sum = files.length ∧
        bs.flatten = files ∧
        (∀ i (h : i < bs.length), (bs.get ⟨i, h⟩).length =
          files.length / bs.length +
            if i < files.length % bs.length then 1 else 0) ∧
        (∀ b1 ∈ bs, ∀ b2 ∈ bs, b1.length ≤ b2.length + 1) ∧
        (∀ b ∈ bs, b ≠ [])) := by
  constructor
  · intro h
    unfold make_validation_set
    rw [if_neg (by omega)]
  · intro h
    have hsum : (chunkSizes files.length).sum = files.length := chunkSizes_sum _ h
    obtain ⟨hlen, hflat⟩ :=
      takeChunks_spec (chunkSizes files.length) files (le_of_eq hsum)
    have hbl : (takeChunks (chunkSizes files.length) files).length =
        (files.length + 99) / 100 := by
      rw [← List.length_map (takeChunks (chunkSizes files.length) files) List.length,
        hlen, chunkSizes_len]
    refine ⟨takeChunks (chunkSizes files.length) files,
      ?_, hbl, by omega, by omega, by rw [hlen, hsum],
      by rw [hflat, hsum, List.take_length], ?_, ?_, ?_⟩
    · unfold make_validation_set
      rw [if_pos h]
    · intro i hi
      have hi2 : i < ((takeChunks (chunkSizes files.length) files).map List.length).length := by
        rw [List.length_map]; exact hi
      have e1 : ((takeChunks (chunkSizes files.length) files).get ⟨i, hi⟩).length =
          ((takeChunks (chunkSizes files.length) files).map List.length).get ⟨i, hi2⟩ := by
        rw [List.get_eq_getElem, List.get_eq_getElem, List.getElem_map]
      rw [e1, List.get_of_eq hlen, chunkSizes_get, hbl]
    · intro b1 hb1 b2 hb2
      have m1 : b1.length ∈ chunkSizes files.length := by
        rw [← hlen]; exact List.mem_map_of_mem List.length hb1
      have m2 : b2.length ∈ chunkSizes files.length := by
        rw [← hlen]; exact List.mem_map_of_mem List.length hb2
      rcases chunkSizes_mem _ _ m1 with e1 | e1 <;>
        rcases chunkSizes_mem _ _ m2 with e2 | e2 <;> omega
    · intro b hb
      have m1 : b.length ∈ chunkSizes files.length := by
        rw [← hlen]; exact List.mem_map_of_mem List.length hb
      have hnum : 0 < (files.length + 99) / 100 := by omega
      have hbase : 1 ≤ files.length / ((files.length + 99) / 100) :=
        (Nat.one_le_div_iff hnum).mpr (by omega)
      have hpos : 0 < b.length := by
        rcases chunkSizes_mem _ _ m1 with e | e <;> omega
      exact List.ne_nil_of_length_pos hpos

/-- Witness for C2 at 250 pooled files: three batches of sizes 84, 83, 83. -/
theorem C2_witness :
    ∃ bs, make_validation_set (List.range 250) = ValidationLayout.batched bs ∧
      bs.length = ((List.range 250).length + 99) / 100 ∧
      100 * (bs.length - 1) < (List.range 250).length ∧
      (List.range 250).length ≤ 100 * bs.length ∧
      (bs.map List.length).sum = (List.range 250).length ∧
      bs.flatten = List.range 250 ∧
      (∀ i (h : i < bs.length), (bs.get ⟨i, h⟩).length =
        (List.range 250).length / bs.length +
          if i < (List.range 250).length % bs.length then 1 else 0) ∧
      (∀ b1 ∈ bs, ∀ b2 ∈ bs, b1.length ≤ b2.length + 1) ∧
      (∀ b ∈ bs, b ≠ []) :=
  (C2_balanced_split Nat (List.range 250)).2 (by simp)

/-- Membership in the missing-rows report: one entry per roster row whose id
is missing, carrying the row's 0-based index offset by the header constant 2
(`k` is the index of the first row of `df`). -/
theorem missingRowsAux_mem (miss : Finset (List Char)) :
    ∀ (df : List ExcelRow) (k n : Nat) (pid nm : List Char),
    ((n, pid, nm) ∈ missingRowsAux miss k df ↔
      ∃ i, df.get? i = some ⟨pid, nm⟩ ∧ n = k + i + 2 ∧ pid ∈ miss) := by
  intro df
  induction df with
  | nil => intro k n pid nm; simp [missingRowsAux]
  | cons r rs ih =>
    intro k n pid nm
    unfold missingRowsAux
    by_cases hm : r.pid ∈ miss
    · rw [if_pos hm]
      constructor
      · intro hmem
        rcases List.mem_cons.mp hmem with hh | ht
        · simp only [Prod.mk.injEq] at hh
          obtain ⟨hn, hp, hnm⟩ := hh
          refine ⟨0, ?_, by omega, by rw [hp]; exact hm⟩
          rw [List.get?_cons_zero]
          cases r with
          | mk rp rn => simp_all
        · rcases (ih (k + 1) n pid nm).mp ht with ⟨j, hj1, hj2, hj3⟩
          exact ⟨j + 1, by rw [List.get?_cons_succ]; exact hj1, by omega, hj3⟩
      · rintro ⟨i, hi1, hi2, hi3⟩
        cases i with
        | zero =>
          rw [List.get?_cons_zero, Option.some.injEq] at hi1
          subst hi1
          have he : (n, pid, nm) =
              (k + 2, (⟨pid, nm⟩ : ExcelRow).pid, (⟨pid, nm⟩ : ExcelRow).pname) := by
            simp
            omega
          rw [he]
          exact List.mem_cons_self _ _
        | succ j =>
          exact List.mem_cons_of_mem _
            ((ih (k + 1) n pid nm).mpr
              ⟨j, by rw [List.get?_cons_succ] at hi1; exact hi1, by omega, hi3⟩)
    · rw [if_neg hm]
      constructor
      · intro hmem
        rcases (ih (k + 1) n pid nm).mp hmem with ⟨j, hj1, hj2, hj3⟩
        exact ⟨j + 1, by rw [List.get?_cons_succ]; exact hj1, by omega, hj3⟩
      · rintro ⟨i, hi1, hi2, hi3⟩
        cases i with
        | zero =>
          rw [List.get?_cons_zero, Option.some.injEq] at hi1
          subst hi1
          exact absurd hi3 hm
        | succ j =>
          exact (ih (k + 1) n pid nm).mpr
            ⟨j, by rw [List.get?_cons_succ] at hi1; exact hi1, by omega, hi3⟩

/-- For a missing id, the report holds exactly one line per roster row
referencing it. -/
theorem missingRowsAux_count (miss : Finset (List Char)) (id : List Char)
    (hid : id ∈ miss) :
    ∀ (df : List ExcelRow) (k : Nat),
    (missingRowsAux miss k df).countP (fun e => decide (e.2.1 = id)) =
      df.countP (fun r => decide (r.pid = id)) := by
  intro df
  induction df with
  | nil => intro k; rfl
  | cons r rs ih =>
    intro k
    unfold missingRowsAux
    by_cases hm : r.pid ∈ miss
    · rw [if_pos hm, List.countP_cons, List.countP_cons, ih (k + 1)]
    · have hne : r.pid ≠ id := fun he => hm (he ▸ hid)
      rw [if_neg hm, List.countP_cons, ih (k + 1)]
      simp [hne]

/-- Claim C8 (counterexample): for the archive directory " A1-x" the code
strips whitespace and records the id "A1", not the raw directory-name prefix
" A1" the claim describes. -/
theorem C8_counterexample :
    "A1".toList ∈ load_patient_ids_from_full [" A1-x".toList] ∧
    specArchivePrefixC8 (" A1-x".toList) = " A1".toList ∧
    " A1".toList ∉ load_patient_ids_from_full [" A1-x".toList] := by
  decide

/-- Claim C8 (amended): the Roster Auditor computes
`missing = roster_ids - archive_ids` and `extra = archive_ids - roster_ids`;
an archive id is the directory-name prefix up to the first delimiter with
surrounding whitespace stripped; every missing id is reported once per roster
row referencing it, with that row's 0-based index offset by the header
constant 2; extra ids are reported without row context. -/
theorem C8_auditor (df : List ExcelRow) (folders : List (List Char)) :
    (∀ id, id ∈ (check_missing_patients df (load_patient_ids_from_full folders)).missing ↔
      (id ∈ excelIds df ∧ id ∉ load_patient_ids_from_full folders)) ∧
    (∀ id, id ∈ (check_missing_patients df (load_patient_ids_from_full folders)).extra ↔
      (id ∈ load_patient_ids_from_full folders ∧ id ∉ excelIds df)) ∧
    (∀ id, id ∈ load_patient_ids_from_full folders ↔
      ∃ folder ∈ folders, id = archiveId folder) ∧
    (∀ n pid nm,
      (n, pid, nm) ∈ (check_missing_patients df (load_patient_ids_from_full folders)).missingRows ↔
      ∃ i, df.get? i = some ⟨pid, nm⟩ ∧ n = i + 2 ∧
        pid ∈ excelIds df ∧ pid ∉ load_patient_ids_from_full folders) ∧
    (∀ id, id ∈ (check_missing_patients df (load_patient_ids_from_full folders)).missing →
      (check_missing_patients df (load_patient_ids_from_full folders)).missingRows.countP
          (fun e => decide (e.2.1 = id)) =
        df.countP (fun r => decide (r.pid = id))) := by
  refine ⟨?_, ?_, ?_, ?_, ?_⟩
  · intro id
    simp [check_missing_patients, Finset.mem_sdiff]
  · intro id
    simp [check_missing_patients, Finset.mem_sdiff]
  · intro id
    simp only [load_patient_ids_from_full, List.mem_toFinset, List.mem_map]
    constructor
    · rintro ⟨folder, hf, he⟩
      exact ⟨folder, hf, he.symm⟩
    · rintro ⟨folder, hf, he⟩
      exact ⟨folder, hf, he.symm⟩
  · intro n pid nm
    rw [show (check_missing_patients df (load_patient_ids_from_full folders)).missingRows =
        missingRowsAux (excelIds df \ load_patient_ids_from_full folders) 0 df from rfl,
      missingRowsAux_mem]
    constructor
    · rintro ⟨i, h1, h2, h3⟩
      rw [Finset.mem_sdiff] at h3
      exact ⟨i, h1, by omega, h3.1, h3.2⟩
    · rintro ⟨i, h1, h2, h3, h4⟩
      exact ⟨i, h1, by omega, Finset.mem_sdiff.mpr ⟨h3, h4⟩⟩
  · intro id hid
    exact missingRowsAux_count _ id hid df 0

/-- Witness for C8: roster rows for ids A, B, A against archive directories
"B-x" and "D-y"; the missing id A is reported once per referencing row. -/
theorem C8_witness :
    (check_missing_patients
        [⟨"A".toList, "n1".toList⟩, ⟨"B".toList, "n2".toList⟩, ⟨"A".toList, "n3".toList⟩]
        (load_patient_ids_from_full ["B-x".toList, "D-y".toList])).missingRows.countP
        (fun e => decide (e.2.1 = "A".toList)) =
      ([⟨"A".toList, "n1".toList⟩, ⟨"B".toList, "n2".toList⟩,
        ⟨"A".toList, "n3".toList⟩] : List ExcelRow).countP
        (fun r => decide (r.pid = "A".toList)) :=
  (C8_auditor
      [⟨"A".toList, "n1".toList⟩, ⟨"B".toList, "n2".toList⟩, ⟨"A".toList, "n3".toList⟩]
      ["B-x".toList, "D-y".toList]).2.2.2.2 ("A".toList) (by decide)

/-- The bucket loop copies exactly the first `10 - counter` files. -/
theorem clfBucket_events (fs : List (List Char)) :
    ∀ (cnt : BKey → Nat) (k : BKey),
      (clfBucket cnt k fs).1 = (fs.take (10 - cnt k)).map (fun f => (k, f)) := by
  induction fs with
  | nil => intro cnt k; simp [clfBucket]
  | cons f fs ih =>
    intro cnt k
    unfold clfBucket
    by_cases h : cnt k < 10
    · rw [if_pos h]
      simp only [ih]
      have h1 : 10 - cnt k = (10 - (cnt k + 1)) + 1 := by omega
      rw [h1, List.take_succ_cons, List.map_cons]
      simp
    · rw [if_neg h, ih]
      have h0 : 10 - cnt k = 0 := by omega
      rw [h0, List.take_zero, List.take_zero]

/-- The bucket loop changes the counter only at its own key. -/
theorem clfBucket_cnt (fs : List (List Char)) :
    ∀ (cnt : BKey → Nat) (k k2 : BKey), k2 ≠ k →
      (clfBucket cnt k fs).2 k2 = cnt k2 := by
  induction fs with
  | nil => intro cnt k k2 _; rfl
  | cons f fs ih =>
    intro cnt k k2 hne
    unfold clfBucket
    by_cases h : cnt k < 10
    · rw [if_pos h]
      simp only [ih _ _ _ hne]
      rw [if_neg hne]
    · rw [if_neg h]
      exact ih _ _ _ hne

/-- Every event the per-patient loop emits is keyed by that patient and one
of its category keys. -/
theorem clfCats_keys (cats : List (List Char × List (List Char))) :
    ∀ (cnt : BKey → Nat) (p : List Char) (e : BKey × List Char),
      e ∈ (clfCats cnt p cats).1 → ∃ ce ∈ cats, e.1 = (p, ce.1) := by
  induction cats with
  | nil => intro cnt p e he; simp [clfCats] at he
  | cons ce rest ih =>
    obtain ⟨c, fs⟩ := ce
    intro cnt p e he
    rcases List.mem_append.mp he with hb | hr
    · rw [clfBucket_events] at hb
      rcases List.mem_map.mp hb with ⟨f, _, hfe⟩
      exact ⟨(c, fs), List.mem_cons_self _ _, by rw [← hfe]⟩
    · rcases ih _ _ _ hr with ⟨ce2, hce2, hk⟩
      exact ⟨ce2, List.mem_cons_of_mem _ hce2, hk⟩

/-- The per-patient loop leaves counters of foreign keys untouched. -/
theorem clfCats_cnt (cats : List (List Char × List (List Char))) :
    ∀ (cnt : BKey → Nat) (p : List Char) (k2 : BKey),
      (∀ ce ∈ cats, k2 ≠ (p, ce.1)) → (clfCats cnt p cats).2 k2 = cnt k2 := by
  induction cats with
  | nil => intro cnt p k2 _; rfl
  | cons ce rest ih =>
    obtain ⟨c, fs⟩ := ce
    intro cnt p k2 hk
    have h1 : (clfCats cnt p ((c, fs) :: rest)).2 =
        (clfCats (clfBucket cnt (p, c) fs).2 p rest).2 := rfl
    rw [h1, ih _ _ _ (fun ce2 hce2 => hk ce2 (List.mem_cons_of_mem _ hce2)),
      clfBucket_cnt _ _ _ _ (hk (c, fs) (List.mem_cons_self _ _))]

/-- Every event the outer loop emits is keyed by a listed patient and one of
that patient's category keys. -/
theorem clfPatients_keys (pf : List (List Char × List (List Char × List (List Char)))) :
    ∀ (cnt : BKey → Nat) (e : BKey × List Char),
      e ∈ (clfPatients cnt pf).1 →
        ∃ pe ∈ pf, ∃ ce ∈ pe.2, e.1 = (pe.1, ce.1) := by
  induction pf with
  | nil => intro cnt e he; simp [clfPatients] at he
  | cons pe rest ih =>
    obtain ⟨p, cats⟩ := pe
    intro cnt e he
    rcases List.mem_append.mp he with hb | hr
    · rcases clfCats_keys cats cnt p e hb with ⟨ce2, hce2, hk⟩
      exact ⟨(p, cats), List.mem_cons_self _ _, ce2, hce2, hk⟩
    · rcases ih _ _ hr with ⟨pe2, hpe2, ce2, hce2, hk⟩
      exact ⟨pe2, List.mem_cons_of_mem _ hpe2, ce2, hce2, hk⟩

/-- Selecting a bucket key out of that bucket's own events recovers the
copied files. -/
theorem filterMap_sel_map (k : BKey) (xs : List (List Char)) :
    (xs.map (fun f => (k, f))).filterMap
      (fun e => if e.1 = k then some e.2 else none) = xs := by
  induction xs with
  | nil => rfl
  | cons x xs ih => simp_all

/-- Selecting a bucket key out of a foreign bucket's events yields nothing. -/
theorem filterMap_sel_map_ne (k k' : BKey) (hne : k' ≠ k) (xs : List (List Char)) :
    (xs.map (fun f => (k', f))).filterMap
      (fun e => if e.1 = k then some e.2 else none) = [] := by
  induction xs with
  | nil => rfl
  | cons x xs ih => simp_all [hne]

/-- Selecting a key out of events that all carry other keys yields nothing. -/
theorem filterMap_sel_nil (k : BKey) (l : List (BKey × List Char))
    (h : ∀ e ∈ l, e.1 ≠ k) :
    l.filterMap (fun e => if e.1 = k then some e.2 else none) = [] := by
  induction l with
  | nil => rfl
  | cons e rest ih =>
    rw [List.filterMap_cons, if_neg (h e (List.mem_cons_self _ _))]
    exact ih (fun e2 he2 => h e2 (List.mem_cons_of_mem _ he2))

/-- Within one patient, with distinct category keys and a fresh counter at
the target key, the target bucket's copied files are its first ten. -/
theorem clfCats_filter (cats : List (List Char × List (List Char))) :
    ∀ (cnt : BKey → Nat) (p c : List Char) (fs : List (List Char)),
      (cats.map Prod.fst).Nodup → (c, fs) ∈ cats → cnt (p, c) = 0 →
      (clfCats cnt p cats).1.filterMap
        (fun e => if e.1 = (p, c) then some e.2 else none) = fs.take 10 := by
  induction cats with
  | nil => intro cnt p c fs _ hmem _; simp at hmem
  | cons ce rest ih =>
    obtain ⟨c', fs'⟩ := ce
    intro cnt p c fs hnd hmem hcnt
    have hsplit : (clfCats cnt p ((c', fs') :: rest)).1 =
        (clfBucket cnt (p, c') fs').1 ++
        (clfCats (clfBucket cnt (p, c') fs').2 p rest).1 := rfl
    rw [hsplit, List.filterMap_append]
    have hnd' : c' ∉ rest.map Prod.fst ∧ (rest.map Prod.fst).Nodup := by
      rw [List.map_cons] at hnd
      exact List.nodup_cons.mp hnd
    rcases List.mem_cons.mp hmem with hh | ht
    · obtain ⟨hc, hf⟩ : c = c' ∧ fs = fs' := Prod.mk.injEq .. ▸ hh
      subst hc
      subst hf
      rw [clfBucket_events, hcnt, filterMap_sel_map]
      have hrest : (clfCats (clfBucket cnt (p, c) fs).2 p rest).1.filterMap
          (fun e => if e.1 = (p, c) then some e.2 else none) = [] := by
        apply filterMap_sel_nil
        intro e he
        rcases clfCats_keys rest _ p e he with ⟨ce2, hce2, hk⟩
        rw [hk]
        intro heq
        have hc2 : ce2.1 = c := by
          have := (Prod.mk.injEq .. ▸ heq).2
          exact this
        exact hnd'.1 (hc2 ▸ List.mem_map_of_mem Prod.fst hce2)
      rw [hrest, List.append_nil]
    · have hcc : (p, c) ≠ (p, c') := by
        intro he
        have hc2 : c = c' := (Prod.mk.injEq .. ▸ he).2
        exact hnd'.1 (hc2 ▸ List.mem_map_of_mem Prod.fst ht)
      rw [clfBucket_events, filterMap_sel_map_ne _ _ (fun he => hcc he.symm),
        List.nil_append]
      exact ih _ _ _ _ hnd'.2 ht (by rw [clfBucket_cnt _ _ _ _ hcc]; exact hcnt)

/-- Across patients, with distinct patient keys, distinct category keys, and
a fresh counter, each bucket's copied files are its first ten. -/
theorem clfPatients_filter (pf : List (List Char × List (List Char × List (List Char)))) :
    ∀ (cnt : BKey → Nat) (p : List Char) (cats : List (List Char × List (List Char)))
      (c : List Char) (fs : List (List Char)),
      (pf.map Prod.fst).Nodup → (∀ pe ∈ pf, (pe.2.map Prod.fst).Nodup) →
      (p, cats) ∈ pf → (c, fs) ∈ cats → cnt (p, c) = 0 →
      (clfPatients cnt pf).1.filterMap
        (fun e => if e.1 = (p, c) then some e.2 else none) = fs.take 10 := by
  induction pf with
  | nil => intro cnt p cats c fs _ _ hpm _ _; simp at hpm
  | cons pe rest ih =>
    obtain ⟨p', cats'⟩ := pe
    intro cnt p cats c fs hnd1 hnd2 hpm hcm hcnt
    have hsplit : (clfPatients cnt ((p', cats') :: rest)).1 =
        (clfCats cnt p' cats').1 ++ (clfPatients (clfCats cnt p' cats').2 rest).1 := rfl
    rw [hsplit, List.filterMap_append]
    have hnd1' : p' ∉ rest.map Prod.fst ∧ (rest.map Prod.fst).Nodup := by
      rw [List.map_cons] at hnd1
      exact List.nodup_cons.mp hnd1
    rcases List.mem_cons.mp hpm with hh | ht
    · obtain ⟨hp, hcat⟩ : p = p' ∧ cats = cats' := Prod.mk.injEq .. ▸ hh
      subst hp
      subst hcat
      rw [clfCats_filter cats cnt p c fs
        (by simpa using hnd2 (p, cats) (List.mem_cons_self _ _)) hcm hcnt]
      have hrest : (clfPatients (clfCats cnt p cats).2 rest).1.filterMap
          (fun e => if e.1 = (p, c) then some e.2 else none) = [] := by
        apply filterMap_sel_nil
        intro e he
        rcases clfPatients_keys rest _ e he with ⟨pe2, hpe2, ce2, _, hk⟩
        rw [hk]
        intro heq
        have hp2 : pe2.1 = p := (Prod.mk.injEq .. ▸ heq).1
        exact hnd1'.1 (hp2 ▸ List.mem_map_of_mem Prod.fst hpe2)
      rw [hrest, List.append_nil]
    · have hpp : p ≠ p' := by
        intro he
        exact hnd1'.1 (he ▸ List.mem_map_of_mem Prod.fst ht)
      have hhead : (clfCats cnt p' cats').1.filterMap
          (fun e => if e.1 = (p, c) then some e.2 else none) = [] := by
        apply filterMap_sel_nil
        intro e he
        rcases clfCats_keys cats' cnt p' e he with ⟨ce2, _, hk⟩
        rw [hk]
        intro heq
        exact hpp ((Prod.mk.injEq .. ▸ heq).1).symm
      rw [hhead, List.nil_append]
      refine ih _ _ _ _ _ hnd1'.2
        (fun pe2 hpe2 => hnd2 pe2 (List.mem_cons_of_mem _ hpe2)) ht hcm ?_
      rw [clfCats_cnt]
      · exact hcnt
      · intro ce2 _
        intro he
        exact hpp (Prod.mk.injEq .. ▸ he).1

/-- Claim C4: for every `(patient_id, category)` bucket of size `N` in the
Reconciliation Index (nested dict, so keys are unique), the Bounded Sampler
selects exactly `min(N, 10)` documents, and they are precisely the first
`min(N, 10)` entries of the bucket's ordered list — a pure truncation,
independent across buckets. -/
theorem C4_sampler_cap (pf : List (List Char × List (List Char × List (List Char))))
    (p : List Char) (cats : List (List Char × List (List Char)))
    (c : List Char) (fs : List (List Char))
    (hnd1 : (pf.map Prod.fst).Nodup)
    (hnd2 : ∀ pe ∈ pf, (pe.2.map Prod.fst).Nodup)
    (hpm : (p, cats) ∈ pf) (hcm : (c, fs) ∈ cats) :
    (copy_limited_files pf).filterMap
      (fun e => if e.1 = (p, c) then some e.2 else none) = fs.take 10 ∧
    (fs.take 10).length = min fs.length 10 := by
  constructor
  · exact clfPatients_filter pf (fun _ => 0) p cats c fs hnd1 hnd2 hpm hcm rfl
  · rw [List.length_take, Nat.min_comm]

/-- Witness for C4: one patient, one category, twelve files; the sample is
the first ten. -/
theorem C4_witness :
    (copy_limited_files
        [("P1".toList, [("C1".toList, List.replicate 12 ['x'])])]).filterMap
      (fun e => if e.1 = ("P1".toList, "C1".toList) then some e.2 else none) =
      (List.replicate 12 ['x']).take 10 ∧
    ((List.replicate 12 ['x']).take 10).length = min (List.replicate 12 ['x']).length 10 :=
  C4_sampler_cap
    [("P1".toList, [("C1".toList, List.replicate 12 ['x'])])]
    ("P1".toList) [("C1".toList, List.replicate 12 ['x'])]
    ("C1".toList) (List.replicate 12 ['x'])
    (by decide) (by decide) (by decide) (by decide)

/-- Appending into an inner category bucket: the bucket now holds its old
files plus the new one. -/
theorem findA_appendInner_self (cats : List (List Char × List (List Char)))
    (c f : List Char) :
    findA c (appendInner cats c f) =
      some (match findA c cats with | some fs => fs ++ [f] | none => [f]) := by
  induction cats with
  | nil => simp [appendInner, findA]
  | cons cf rest ih =>
    obtain ⟨c', fs⟩ := cf
    by_cases h : c = c'
    · subst h
      simp [appendInner, findA]
    · simp [appendInner, findA, h, ih]

/-- Appending into an inner bucket leaves other category buckets unchanged. -/
theorem findA_appendInner_other (cats : List (List Char × List (List Char)))
    (c c' f : List Char) (h : c' ≠ c) :
    findA c' (appendInner cats c f) = findA c' cats := by
  induction cats with
  | nil => simp [appendInner, findA, h]
  | cons cf rest ih =>
    obtain ⟨c'', fs⟩ := cf
    by_cases h2 : c = c''
    · subst h2
      simp [appendInner, findA, h]
    · by_cases h3 : c' = c''
      · subst h3
        simp [appendInner, findA, h2]
      · simp [appendInner, findA, h2, h3, ih]

/-- Inserting a file: the patient's category map gains the file. -/
theorem findA_insertIdx_self (idx : Index) (p c f : List Char) :
    findA p (insertIdx idx p c f) =
      some (match findA p idx with
            | some cats => appendInner cats c f
            | none => [(c, [f])]) := by
  induction idx with
  | nil => simp [insertIdx, findA]
  | cons pc rest ih =>
    obtain ⟨p', cats⟩ := pc
    by_cases h : p = p'
    · subst h
      simp [insertIdx, findA]
    · simp [insertIdx, findA, h, ih]

/-- Inserting a file leaves other patients' category maps unchanged. -/
theorem findA_insertIdx_other (idx : Index) (p p' c f : List Char) (h : p' ≠ p) :
    findA p' (insertIdx idx p c f) = findA p' idx := by
  induction idx with
  | nil => simp [insertIdx, findA, h]
  | cons pc rest ih =>
    obtain ⟨p'', cats⟩ := pc
    by_cases h2 : p = p''
    · subst h2
      simp [insertIdx, findA, h]
    · by_cases h3 : p' = p''
      · subst h3
        simp [insertIdx, findA, h2]
      · simp [insertIdx, findA, h2, h3, ih]

/-- Inserting appends the file at the end of exactly its own bucket. -/
theorem getBucket_insert_self (idx : Index) (p c f : List Char) :
    getBucket (insertIdx idx p c f) p c = getBucket idx p c ++ [f] := by
  unfold getBucket
  rw [findA_insertIdx_self]
  cases h1 : findA p idx with
  | none => simp [findA]
  | some cats =>
    dsimp only
    rw [findA_appendInner_self]
    cases h2 : findA c cats <;> simp

/-- Inserting never removes a file from any bucket. -/
theorem getBucket_insert_mono (idx : Index) (p c f p' c' x : List Char)
    (h : x ∈ getBucket idx p' c') : x ∈ getBucket (insertIdx idx p c f) p' c' := by
  by_cases hp : p' = p
  · subst hp
    by_cases hc : c' = c
    · subst hc
      rw [getBucket_insert_self]
      exact List.mem_append_left _ h
    · unfold getBucket at *
      rw [findA_insertIdx_self]
      cases h1 : findA p' idx with
      | none => rw [h1] at h; simp at h
      | some cats =>
        rw [h1] at h
        dsimp only at h ⊢
        rw [findA_appendInner_other _ _ _ _ hc]
        exact h
  · unfold getBucket at *
    rw [findA_insertIdx_other _ _ _ _ _ hp]
    exact h

/-- The index-build fold only ever appends to the log. -/
theorem copyAll_log_mono (m : Mapping) (parse : XmlOracle) :
    ∀ (files : List (List Char)) (acc : Index × List LogEntry) (e : LogEntry),
      e ∈ acc.2 → e ∈ (files.foldl (caStep m parse) acc).2 := by
  intro files
  induction files with
  | nil => intro acc e he; exact he
  | cons f fs ih =>
    intro acc e he
    rw [List.foldl_cons]
    apply ih
    simp only [caStep]
    exact List.mem_append_left _ (List.mem_append_left _ he)

/-- The index-build fold never removes a file from a bucket. -/
theorem copyAll_bucket_mono (m : Mapping) (parse : XmlOracle) :
    ∀ (files : List (List Char)) (acc : Index × List LogEntry) (p c x : List Char),
      x ∈ getBucket acc.1 p c →
      x ∈ getBucket ((files.foldl (caStep m parse) acc).1) p c := by
  intro files
  induction files with
  | nil => intro acc p c x h; exact h
  | cons f fs ih =>
    intro acc p c x h
    rw [List.foldl_cons]
    apply ih
    simp only [caStep]
    exact getBucket_insert_mono _ _ _ _ _ _ _ h

/-- Every enumerated file ends up in its `(patient_id, category)` bucket, and
an UNKNOWN patient id leaves the missing-patient diagnostic in the log. -/
theorem copyAll_mem (m : Mapping) (parse : XmlOracle) :
    ∀ (files : List (List Char)) (acc : Index × List LogEntry) (src : List Char),
      src ∈ files →
      src ∈ getBucket ((files.foldl (caStep m parse) acc).1)
        (parse_patient_id_and_name src m parse).1.1 (parse_category (basename src)) ∧
      ((parse_patient_id_and_name src m parse).1.1 = UNKNOWN' →
        LogEntry.noPatientId (basename src) ∈ (files.foldl (caStep m parse) acc).2) := by
  intro files
  induction files with
  | nil => intro acc src h; simp at h
  | cons f fs ih =>
    intro acc src hmem
    rw [List.foldl_cons]
    rcases List.mem_cons.mp hmem with rfl | ht
    · constructor
      · apply copyAll_bucket_mono
        simp only [caStep]
        rw [getBucket_insert_self]
        exact List.mem_append_right _ (List.mem_singleton_self _)
      · intro hpid
        apply copyAll_log_mono
        simp only [caStep]
        rw [if_pos hpid]
        exact List.mem_append_right _ (List.mem_singleton_self _)
    · exact ih (caStep m parse acc f) src ht

/-- Claim C1 (counterexample): the file "a.xml" resolves to the unknown-name
sentinel, yet the Reconciliation Index builder still inserts it (under the
UNKNOWN patient bucket and UNKNOWN category) — the code has no skip path at
all, contradicting the claim that such documents are not inserted. -/
theorem C1_counterexample :
    (parse_patient_id_and_name ("a.xml".toList) emptyMapping failOracle).1.2 = unknownName ∧
    "a.xml".toList ∈ getBucket (copy_all_files ["a.xml".toList] emptyMapping failOracle).1
      UNKNOWN' UNKNOWN' := by
  decide

/-- Claim C1 (amended): no enumerated document is ever skipped: every file is
inserted into the Reconciliation Index under its resolved
`(patient_id, category)` — even when the resolved person name is the
unknown-name sentinel — and whenever `patient_id` is UNKNOWN a diagnostic
naming the file is emitted; in particular a document with
`patient_id == UNKNOWN` but a resolved name is archived under the UNKNOWN
identifier bucket rather than dropped. -/
theorem C1_no_skip (files : List (List Char)) (m : Mapping) (parse : XmlOracle)
    (src : List Char) (hmem : src ∈ files) :
    src ∈ getBucket (copy_all_files files m parse).1
      (parse_patient_id_and_name src m parse).1.1 (parse_category (basename src)) ∧
    ((parse_patient_id_and_name src m parse).1.1 = UNKNOWN' →
      LogEntry.noPatientId (basename src) ∈ (copy_all_files files m parse).2) :=
  copyAll_mem m parse files ([], []) src hmem

/-- Witness for C1: a four-token file with no roster entry and a failing XML
parse is archived under the UNKNOWN bucket with the diagnostic logged. -/
theorem C1_witness :
    "x1-x2-x3-n4.xml".toList ∈
      getBucket (copy_all_files ["x1-x2-x3-n4.xml".toList] emptyMapping failOracle).1
        (parse_patient_id_and_name ("x1-x2-x3-n4.xml".toList) emptyMapping failOracle).1.1
        (parse_category (basename ("x1-x2-x3-n4.xml".toList))) ∧
    ((parse_patient_id_and_name ("x1-x2-x3-n4.xml".toList) emptyMapping failOracle).1.1 =
        UNKNOWN' →
      LogEntry.noPatientId (basename ("x1-x2-x3-n4.xml".toList)) ∈
        (copy_all_files ["x1-x2-x3-n4.xml".toList] emptyMapping failOracle).2) :=
  C1_no_skip ["x1-x2-x3-n4.xml".toList] emptyMapping failOracle
    ("x1-x2-x3-n4.xml".toList) (by decide)
